import Mathlib

/-!
A verification development for the `agent_skills_sdk` package: the tool
executor (`executor.py`), skill discovery (`discovery.py`), the manifest
tool scan of the parser (`parser.py`), metadata name validation (`models.py`),
and the client cache orchestration (`client.py`) are shallowly embedded as
executable Lean definitions, and the behavioural properties claimed for
them are proved or refuted.
-/

namespace AgentSkills

/-! Part: JSON values

Python values produced by `json.loads`: `null`/`None`, booleans, numbers,
strings, arrays and objects.  Numbers are modelled as integers — the
claims under study never depend on fractional values.  An object is an
association list of key/value pairs (Python `dict` insertion order). -/

inductive Json where
  | null : Json
  | bool (b : Bool) : Json
  | num (n : Int) : Json
  | str (s : String) : Json
  | arr (xs : List Json) : Json
  | obj (kvs : List (String × Json)) : Json
deriving Repr

/-- Python truthiness of a decoded JSON value: `None`, `False`, `0`, `""`,
`[]` and `{}` are falsy, everything else is truthy. -/
def Json.truthy : Json → Bool
  | .null => false
  | .bool b => b
  | .num n => n != 0
  | .str s => s != ""
  | .arr xs => !xs.isEmpty
  | .obj kvs => !kvs.isEmpty

/-- Python `dict.get(k)` on a decoded JSON object: `None` both when the key
is absent and when it maps to JSON `null` (both are Python `None`), so a
`some` result is never `Json.null`. -/
def pyGet (kvs : List (String × Json)) (k : String) : Option Json :=
  match kvs.find? (fun p => p.1 == k) with
  | some (_, Json.null) => none
  | some (_, v) => some v
  | none => none

/-- Truthiness of an optional Python value (`None` is falsy). -/
def pyTruthy : Option Json → Bool
  | none => false
  | some v => v.truthy

/-- Python `a or b` on optional values: `a` when `a` is truthy, else `b`. -/
def pyOr (a b : Option Json) : Option Json :=
  if pyTruthy a then a else b

/-! Part: Execution sandbox (`executor.py`)

`json.loads` is standard-library code, so the embedding is parameterised
by a partial parse function `parse : String → Option Json` (`none` models
`json.JSONDecodeError`).  The subprocess boundary is abstracted to the
observable outcome of the child process: either `subprocess.TimeoutExpired`
was raised, some other spawn/IO exception was raised, or the process
completed with a return code, captured stdout and captured stderr. -/

/-- The completed child process observation: the `returncode`, `stdout`
and `stderr` captured by `subprocess.run` (text mode). -/
structure ScriptOutput where
  returncode : Int
  stdout : String
  stderr : String
deriving Repr, DecidableEq

/-- The dictionary built by `ToolExecutor._execute_script` (executor.py
lines 146–183) after the child process completed.  `data` and `error` hold
decoded Python values (`none` = Python `None`). -/
structure ExecResultDict where
  success : Bool
  data : Option Json
  error : Option Json
  stdout : String
  stderr : String
  exit_code : Int
deriving Repr

/-- Output decoding of `ToolExecutor._execute_script` (executor.py lines
146–183): `success` starts as `returncode == 0`; stdout is JSON-decoded
only when `success` holds and stdout is non-empty (Python truthiness of
the string); otherwise, when stderr is non-empty, an error message is
decoded from stderr. -/
def execute_script_decode (parse : String → Option Json) (r : ScriptOutput) :
    ExecResultDict :=
  let success := r.returncode == 0
  if success && r.stdout != "" then
    match parse r.stdout with
    | some (Json.obj kvs) =>
        { success := match pyGet kvs "status" with
                     | some (Json.str s) => s == "success"
                     | _ => false
          data := pyGet kvs "data"
          error := pyOr (pyGet kvs "message") (pyGet kvs "error")
          stdout := r.stdout, stderr := r.stderr, exit_code := r.returncode }
    | some v =>
        { success := success, data := some v, error := none
          stdout := r.stdout, stderr := r.stderr, exit_code := r.returncode }
    | none =>
        { success := success, data := some (Json.str r.stdout), error := none
          stdout := r.stdout, stderr := r.stderr, exit_code := r.returncode }
  else if r.stderr != "" then
    match parse r.stderr with
    | some (Json.obj kvs) =>
        { success := success, data := none
          error := pyOr (pyGet kvs "message") (pyGet kvs "error")
          stdout := r.stdout, stderr := r.stderr, exit_code := r.returncode }
    | some _ =>
        { success := success, data := none, error := some (Json.str r.stderr)
          stdout := r.stdout, stderr := r.stderr, exit_code := r.returncode }
    | none =>
        { success := success, data := none, error := some (Json.str r.stderr)
          stdout := r.stdout, stderr := r.stderr, exit_code := r.returncode }
  else
    { success := success, data := none, error := none
      stdout := r.stdout, stderr := r.stderr, exit_code := r.returncode }

/-- The effective timeout `exec_timeout = timeout or self.timeout`
(executor.py line 69): Python `or`, so an override of `0` is falsy and
falls back to the configured default. -/
def exec_timeout (timeout : Option Int) (default : Int) : Int :=
  match timeout with
  | some t => if t != 0 then t else default
  | none => default

/-- The `ToolExecutionResult` model (models.py).  `error` is kept as a
decoded Python value; fields absent in a branch are `none`. -/
structure ToolExecutionResultM where
  success : Bool
  data : Option Json
  error : Option Json
  stdout : Option String
  stderr : Option String
  exit_code : Option Int
deriving Repr

/-- Outcome of the `subprocess.run` call inside `execute`. -/
inductive ProcOutcome where
  | timedOut : ProcOutcome
  | spawnError (msg : String) : ProcOutcome
  | completed (r : ScriptOutput) : ProcOutcome

/-- Conditions `ToolExecutor.execute` raises (not in-band results). -/
inductive ExecErr where
  | toolNotFound : ExecErr
  | executionError (msg : String) : ExecErr
deriving Repr, DecidableEq

/-- Model of `ToolExecutor.execute` (executor.py lines 33–105): raise when the tool
is missing or its script file is absent; return an in-band failed result on
`subprocess.TimeoutExpired`; re-raise any other exception as an execution
error; otherwise build the result from the `_execute_script` dictionary. -/
def execute (parse : String → Option Json) (defaultTimeout : Int)
    (timeout : Option Int) (toolFound : Bool) (scriptExists : Bool)
    (outcome : ProcOutcome) : Except ExecErr ToolExecutionResultM :=
  if !toolFound then
    .error .toolNotFound
  else if !scriptExists then
    .error (.executionError "Script not found")
  else
    match outcome with
    | .timedOut =>
        .ok { success := false
              data := none
              error := some (Json.str
                ("Tool execution timed out after "
                  ++ toString (exec_timeout timeout defaultTimeout) ++ "s"))
              stdout := none, stderr := none, exit_code := none }
    | .spawnError m => .error (.executionError m)
    | .completed r =>
        let d := execute_script_decode parse r
        .ok { success := d.success
              data := d.data
              error := d.error
              stdout := some d.stdout
              stderr := some d.stderr
              exit_code := some d.exit_code }

/-- A JSON text declaring success with a small data payload. -/
def successJsonText : String := "\x7b\"status\": \"success\", \"data\": 1\x7d"

/-- The JSON text of an empty object. -/
def emptyObjText : String := "\x7b\x7d"

/-- A concrete stand-in for `json.loads`, defined on the handful of
strings the concrete witnesses and counterexamples use; everything else is
treated as undecodable. -/
def parseFix : String → Option Json := fun s =>
  if s = successJsonText then
    some (Json.obj [("status", Json.str "success"), ("data", Json.num 1)])
  else if s = emptyObjText then
    some (Json.obj [])
  else
    none

/-! Part: Metadata name validation (`models.py`)

`SkillMetadata.name` is constrained by the pydantic field
(`min_length=1, max_length=64, pattern=r"^[a-z0-9-]+$"`) and then by the
`validate_name` field validator, which requires Python `str.islower()` and
every character alphanumeric or a hyphen.  The Python `str` character
classes are modelled at ASCII precision (non-ASCII characters are rejected
by the pattern constraint before the validator runs). -/

/-- ASCII uppercase letter (`A`–`Z`). -/
def charIsUpper (c : Char) : Bool := 65 ≤ c.toNat && c.toNat ≤ 90

/-- ASCII lowercase letter (`a`–`z`). -/
def charIsLower (c : Char) : Bool := 97 ≤ c.toNat && c.toNat ≤ 122

/-- ASCII digit (`0`–`9`). -/
def charIsDigit (c : Char) : Bool := 48 ≤ c.toNat && c.toNat ≤ 57

/-- ASCII model of the Python cased characters (`str.islower` looks only at
cased characters). -/
def pyIsCased (c : Char) : Bool := charIsUpper c || charIsLower c

/-- Python `str.islower()`: at least one cased character, and no cased
character is uppercase. -/
def pyIslower (s : String) : Bool :=
  s.toList.any pyIsCased && s.toList.all (fun c => !pyIsCased c || charIsLower c)

/-- ASCII model of Python `str.isalnum()` on one character. -/
def pyIsalnum (c : Char) : Bool := charIsUpper c || charIsLower c || charIsDigit c

/-- The `validate_name` field validator (models.py lines 34–42): `islower`
plus every character alphanumeric or `-`. -/
def validate_name (s : String) : Bool :=
  pyIslower s && s.toList.all (fun c => pyIsalnum c || c == '-')

/-- The pydantic `pattern=r"^[a-z0-9-]+$"` constraint. -/
def name_matches_pattern (s : String) : Bool :=
  !s.isEmpty && s.toList.all (fun c => charIsLower c || charIsDigit c || c == '-')

/-- Full acceptance of a candidate `name` by `SkillMetadata` validation:
the field constraints (length bounds and pattern) and the `validate_name`
validator must all pass. -/
def name_validation_ok (s : String) : Bool :=
  (1 ≤ s.length && s.length ≤ 64) && name_matches_pattern s && validate_name s

/-! Part: Parser tool scan (`parser.py`)

`SkillParser._discover_tools` lists the `scripts/` directory; every regular
file with a recognized extension becomes a `ToolDefinition` whose name is
the file stem with underscores replaced by hyphens.  The `pathlib`
`stem`/`suffix` pair splits on the last dot when it is neither the first nor the
last character of the file name. -/

/-- One entry of a directory listing (`Path.iterdir()` order). -/
structure DirEntry where
  name : String
  isFile : Bool
deriving Repr, DecidableEq

/-- Index of the last dot character in a string, `none` when absent
(Python `str.rfind` with a dot argument). -/
def rfindDot (s : String) : Option Nat :=
  ((List.range s.toList.length).filter
    (fun i => s.toList.getD i ' ' == '.')).getLast?

/-- Model of `pathlib.PurePath.suffix`: the part from the last dot on, provided that
dot is neither the first nor the last character; else `""`. -/
def path_suffix (s : String) : String :=
  match rfindDot s with
  | some i => if 1 ≤ i && i + 1 < s.toList.length then
      String.mk (s.toList.drop i) else ""
  | none => ""

/-- Model of `pathlib.PurePath.stem`: the file name with `suffix` removed. -/
def path_stem (s : String) : String :=
  match rfindDot s with
  | some i => if 1 ≤ i && i + 1 < s.toList.length then
      String.mk (s.toList.take i) else s
  | none => s

/-- Python `str.replace` mapping each underscore to a hyphen. -/
def replaceUnderscores (s : String) : String :=
  String.mk (s.toList.map (fun c => if c == '_' then '-' else c))

/-- The `ToolDefinition` model (models.py), as built by the tool scan. -/
structure ToolDefinitionM where
  name : String
  description : String
  script_path : String
deriving Repr, DecidableEq

/-- Whether a directory entry qualifies as a tool script: a regular file
with suffix among `.py`, `.sh`, `.js`, `.rb` (parser.py line 110). -/
def isToolScript (f : DirEntry) : Bool :=
  f.isFile && [".py", ".sh", ".js", ".rb"].contains (path_suffix f.name)

/-- Model of `SkillParser._discover_tools` (parser.py lines 93–122): empty when
`scripts/` is missing or not a directory, else one `ToolDefinition` per
qualifying script file, named by the underscore-to-hyphen mapped stem. -/
def discover_tools (scriptsDirOk : Bool) (entries : List DirEntry) :
    List ToolDefinitionM :=
  if !scriptsDirOk then []
  else
    entries.filterMap (fun f =>
      if isToolScript f then
        let tool_name := replaceUnderscores (path_stem f.name)
        some { name := tool_name
               description := "Tool: " ++ tool_name
               script_path := "scripts/" ++ f.name }
      else none)

/-- The tool names the scan derives from a listing, in order. -/
def script_tool_names (entries : List DirEntry) : List String :=
  entries.filterMap (fun f =>
    if isToolScript f then some (replaceUnderscores (path_stem f.name))
    else none)

/-! Part: Skill and metadata models (`models.py`)

Only the fields the discovery/client claims observe are modelled; a parsed
`Skill` carries its metadata, the verbatim instructions body and its
resource list. -/

/-- The `ResourceDefinition` model: resource name and backing file path. -/
structure ResourceDefinitionM where
  name : String
  path : String
deriving Repr, DecidableEq

/-- The `SkillMetadata` model, projected to the fields the claims use. -/
structure SkillMetadataM where
  name : String
  description : String
deriving Repr, DecidableEq

/-- The `Skill` model, projected to the fields the claims use. -/
structure SkillM where
  metadata : SkillMetadataM
  instructions : String
  resources : List ResourceDefinitionM
deriving Repr, DecidableEq

/-- The `Skill.name` property: the metadata name. -/
def SkillM.name (s : SkillM) : String := s.metadata.name

/-- Model of `Skill.get_resource`: first declared resource with the given name. -/
def SkillM.get_resource (s : SkillM) (resource_name : String) :
    Option ResourceDefinitionM :=
  s.resources.find? (fun r => r.name == resource_name)

/-! Part: Discovery walker (`discovery.py`)

The directory tree of a search root is a rose tree: each directory records
whether it directly contains a `SKILL.md` file and lists its named
subdirectories.  the parser reads the filesystem, so each root
carries a parse oracle mapping a bundle directory (as a relative path) to
its parse result; `none` models a raised parse/validation error. -/

/-- A directory: whether `SKILL.md` is among its files, and its
subdirectories with their names. -/
inductive DirTree where
  | mk (hasManifest : Bool) (children : List (String × DirTree)) : DirTree

/-- Whether `SKILL.md` is directly in this directory. -/
def DirTree.hasManifest : DirTree → Bool
  | .mk b _ => b

/-- The named subdirectories. -/
def DirTree.children : DirTree → List (String × DirTree)
  | .mk _ cs => cs

mutual

/-- The `os.walk` loop of `SkillDiscovery._find_skill_directories`
(discovery.py lines 125–131): top-down depth-first scan collecting every
directory holding a `SKILL.md`, clearing the pending subdirectory list
(`dirs.clear()`) whenever one is found, so identified bundles are never
descended into.  Results are relative paths from the search root. -/
def findDirs : DirTree → List (List String)
  | .mk true _ => [[]]
  | .mk false cs => findDirsChildren cs

/-- Depth-first scan of a subdirectory list, in order. -/
def findDirsChildren : List (String × DirTree) → List (List String)
  | [] => []
  | (n, t) :: rest => (findDirs t).map (n :: ·) ++ findDirsChildren rest

end

mutual

/-- Filesystem well-formedness: sibling directory names are distinct at
every level (true of any real directory tree). -/
def DirTree.wf : DirTree → Bool
  | .mk _ cs => decide ((cs.map Prod.fst).Nodup) && wfChildren cs

/-- Well-formedness of every subtree in a subdirectory list. -/
def wfChildren : List (String × DirTree) → Bool
  | [] => true
  | (_, t) :: rest => t.wf && wfChildren rest

end

/-- One search root: whether the path exists on disk, its directory tree,
and the parse oracle for bundle directories inside it. -/
structure RootFs where
  pathExists : Bool
  tree : DirTree
  parse : List String → Option SkillM

/-- The pass of one root through the `discover_skills` loop (discovery.py lines
37–49): parse each candidate directory, skip parse failures, skip names
already seen, append the rest.  The accumulator is the skill list plus the
`seen_names` set. -/
def scanRoot (parse : List String → Option SkillM) (dirs : List (List String))
    (acc : List SkillM × List String) : List SkillM × List String :=
  dirs.foldl (fun acc d =>
    match parse d with
    | none => acc
    | some skill =>
      if acc.2.contains skill.name then acc
      else (acc.1 ++ [skill], skill.name :: acc.2)) acc

/-- Model of `SkillDiscovery.discover_skills` (discovery.py lines 23–51): scan the
roots in priority order, skipping non-existent roots, deduplicating by
skill name with the first occurrence winning. -/
def discover_skills (roots : List RootFs) : List SkillM :=
  (roots.foldl (fun acc root =>
    if root.pathExists then scanRoot root.parse (findDirs root.tree) acc
    else acc) ([], [])).1

/-- The pass of one root through the `discover_metadata` loop (discovery.py lines
64–80): like `scanRoot` but keeping only `skill.metadata`. -/
def scanRootMeta (parse : List String → Option SkillM)
    (dirs : List (List String)) (acc : List SkillMetadataM × List String) :
    List SkillMetadataM × List String :=
  dirs.foldl (fun acc d =>
    match parse d with
    | none => acc
    | some skill =>
      let metadata := skill.metadata
      if acc.2.contains metadata.name then acc
      else (acc.1 ++ [metadata], metadata.name :: acc.2)) acc

/-- Model of `SkillDiscovery.discover_metadata` (discovery.py lines 53–82). -/
def discover_metadata (roots : List RootFs) : List SkillMetadataM :=
  (roots.foldl (fun acc root =>
    if root.pathExists then scanRootMeta root.parse (findDirs root.tree) acc
    else acc) ([], [])).1

/-- Inner loop of `find_skill_path` for one root: the first candidate
directory whose parse succeeds with the wanted name (parse failures are
skipped). -/
def findInRoot (parse : List String → Option SkillM)
    (dirs : List (List String)) (n : String) : Option (List String) :=
  dirs.find? (fun d =>
    match parse d with
    | some skill => skill.name == n
    | none => false)

/-- Model of `SkillDiscovery.find_skill_path` (discovery.py lines 84–105): roots in
priority order, skipping non-existent ones; the result names the root
(by index) and the bundle directory inside it, or `none`. -/
def find_skill_path (roots : List RootFs) (n : String) :
    Option (Nat × List String) :=
  (roots.enum.filterMap (fun p =>
    if p.2.pathExists then
      (findInRoot p.2.parse (findDirs p.2.tree) n).map (fun d => (p.1, d))
    else none)).head?

/-- Model of `SkillParser.parse` applied to a discovered bundle directory: the
oracle of the root the directory lives in. -/
def parseAt (roots : List RootFs) : Nat × List String → Option SkillM
  | (i, d) => (roots.get? i).bind (fun r => r.parse d)

/-! Part: Client/cache orchestrator (`client.py`) -/

/-- The mutable state of the client: the name-to-skill cache dictionary and the
metadata list cache. -/
structure ClientState where
  skills_cache : List (String × SkillM)
  metadata_cache : List SkillMetadataM
deriving Repr, DecidableEq

/-- Conditions the client raises. -/
inductive ClientErr where
  | skillNotFound : ClientErr
  | parseFailed : ClientErr
  | resourceNotFound : ClientErr
deriving Repr, DecidableEq

/-- Model of `AgentSkillsClient.load_skill` (client.py lines 101–124): return the
cached instance on a hit; on a miss ask discovery for the bundle path
(raising skill-not-found when absent), parse it (parse errors propagate),
insert into the cache and return. -/
def load_skill (roots : List RootFs) (st : ClientState) (n : String) :
    Except ClientErr (SkillM × ClientState) :=
  match st.skills_cache.find? (fun p => p.1 == n) with
  | some p => .ok (p.2, st)
  | none =>
    match find_skill_path roots n with
    | none => .error .skillNotFound
    | some sp =>
      match parseAt roots sp with
      | none => .error .parseFailed
      | some skill =>
        .ok (skill, { st with skills_cache := (n, skill) :: st.skills_cache })

/-- Model of `AgentSkillsClient.reload_skills` (client.py lines 271–274): clear the
skill cache and refresh the metadata cache from a discovery scan. -/
def reload_skills (roots : List RootFs) (_st : ClientState) : ClientState :=
  { skills_cache := [], metadata_cache := discover_metadata roots }

/-- The filesystem oracle that resource reads of the client go through. -/
structure FsOracle where
  fileExists : String → Bool
  readBytes : String → List UInt8

/-- Model of `AgentSkillsClient.get_resource` (client.py lines 167–193): load the
skill, resolve the declared resource by name (raising resource-not-found
when undeclared), raise resource-not-found when its backing file does not
exist, else read and return the file bytes. -/
def get_resource (roots : List RootFs) (fs : FsOracle) (st : ClientState)
    (skill_name resource_name : String) :
    Except ClientErr (List UInt8 × ClientState) :=
  match load_skill roots st skill_name with
  | .error e => .error e
  | .ok (skill, st') =>
    match skill.get_resource resource_name with
    | none => .error .resourceNotFound
    | some r =>
      if fs.fileExists r.path then .ok (fs.readBytes r.path, st')
      else .error .resourceNotFound

/-! Part: Specification-side characterisations and concrete fixtures

The definitions below are not translations of repository code; they are
the reference notions the discovery theorems compare the code against,
plus concrete skills, roots and filesystem oracles for witnesses and
counterexamples. -/

/-- The successful parses of all candidate bundle directories, across the
existing roots in priority order — the stream `discover_skills` consumes,
with failed parses dropped. -/
def successfulParses (roots : List RootFs) : List SkillM :=
  (roots.filter (fun r => r.pathExists)).flatMap
    (fun r => (findDirs r.tree).filterMap r.parse)

/-- The seen-name set after processing a list of parsed skills. -/
def seenAfter : List SkillM → List String → List String
  | [], seen => seen
  | s :: rest, seen =>
    if seen.contains s.name then seenAfter rest seen
    else seenAfter rest (s.name :: seen)

/-- Reference deduplication: keep the first skill of each name not already
in the seen set. -/
def dedupByName : List SkillM → List String → List SkillM
  | [], _ => []
  | s :: rest, seen =>
    if seen.contains s.name then dedupByName rest seen
    else s :: dedupByName rest (s.name :: seen)

/-- A skill named `x` as found in the first fixture root. -/
def skillXA : SkillM :=
  { metadata := { name := "x", description := "first root" }
    instructions := "alpha", resources := [] }

/-- A skill named `x` as found in the second fixture root. -/
def skillXB : SkillM :=
  { metadata := { name := "x", description := "second root" }
    instructions := "beta", resources := [] }

/-- A fixture search root containing one bundle `x` parsing to `skillXA`. -/
def rootA : RootFs :=
  { pathExists := true
    tree := DirTree.mk false [("x", DirTree.mk true [])]
    parse := fun d => if d = ["x"] then some skillXA else none }

/-- A fixture search root containing one bundle `x` parsing to `skillXB`. -/
def rootB : RootFs :=
  { pathExists := true
    tree := DirTree.mk false [("x", DirTree.mk true [])]
    parse := fun d => if d = ["x"] then some skillXB else none }

/-- A fixture resource declaration backed by a file. -/
def notesResource : ResourceDefinitionM :=
  { name := "notes.txt", path := "skills/y/references/notes.txt" }

/-- A fixture skill named `y` declaring one resource. -/
def skillY : SkillM :=
  { metadata := { name := "y", description := "resourceful" }
    instructions := "gamma", resources := [notesResource] }

/-- A fixture search root containing one bundle `y` parsing to `skillY`. -/
def rootY : RootFs :=
  { pathExists := true
    tree := DirTree.mk false [("y", DirTree.mk true [])]
    parse := fun d => if d = ["y"] then some skillY else none }

/-- A fixture filesystem in which exactly the `notesResource` backing file
exists, with contents the two bytes `hi`. -/
def fsFix : FsOracle :=
  { fileExists := fun p => p == "skills/y/references/notes.txt"
    readBytes := fun _ => [104, 105] }

/-- A fixture directory tree with two bundles, one of them below a
non-bundle intermediate directory. -/
def treeFix : DirTree :=
  DirTree.mk false
    [("a", DirTree.mk true [("b", DirTree.mk true [])]),
     ("c", DirTree.mk false [("d", DirTree.mk true [])])]

/-! Part: Theorems for the executor claims -/

/-- C3: a tool execution whose child process exceeds the effective timeout
returns (does not raise) a failed `ToolExecutionResult` whose error message
names the timeout and whose data is absent. -/
theorem timeout_in_band_result (parse : String → Option Json)
    (defaultTimeout : Int) (timeout : Option Int) :
    execute parse defaultTimeout timeout true true .timedOut =
      .ok { success := false
            data := none
            error := some (Json.str
              ("Tool execution timed out after "
                ++ toString (exec_timeout timeout defaultTimeout) ++ "s"))
            stdout := none, stderr := none, exit_code := none } := rfl

/-- C7 counterexample: with the default timeout 30, a supplied override of
`0` is not applied — Python `or` treats it as falsy, so the effective
timeout is 30, not the override. -/
theorem override_zero_falls_back_to_default :
    exec_timeout (some 0) 30 = 30 ∧ (30 : Int) ≠ 0 := by decide

/-- C7 amended: the effective timeout equals the override whenever one is
supplied and non-zero; with no override it is the configured default; a
supplied override of `0` also falls back to the default. -/
theorem effective_timeout_spec :
    (∀ t d : Int, t ≠ 0 → exec_timeout (some t) d = t) ∧
    (∀ d : Int, exec_timeout none d = d) ∧
    (∀ d : Int, exec_timeout (some 0) d = d) := by
  refine ⟨fun t d ht => ?_, fun d => rfl, fun d => rfl⟩
  simp [exec_timeout, ht]

/-- Witness for the amended C7 theorem at overrides 5, none and 0 with
default 30. -/
theorem effective_timeout_spec_witness :
    exec_timeout (some 5) 30 = 5 ∧ exec_timeout none 30 = 30 ∧
      exec_timeout (some 0) 30 = 30 :=
  ⟨effective_timeout_spec.1 5 30 (by decide), effective_timeout_spec.2.1 30,
    effective_timeout_spec.2.2 30⟩

/-- C1 counterexample: a process exiting with code 1 whose stdout is the
JSON mapping with `status` equal to `success` still yields a failed result
with no data — stdout is never decoded on a non-zero exit code, so the
`status` field does not decide success regardless of the exit code. -/
theorem stdout_status_ignored_on_nonzero_exit :
    parseFix successJsonText =
      some (Json.obj [("status", Json.str "success"), ("data", Json.num 1)]) ∧
    (execute_script_decode parseFix
      { returncode := 1, stdout := successJsonText, stderr := "" }).success
        = false ∧
    (execute_script_decode parseFix
      { returncode := 1, stdout := successJsonText, stderr := "" }).data
        = none :=
  ⟨rfl, rfl, rfl⟩

/-- C1 amended: when the process exits with code 0, its stdout is non-empty
and parses as a JSON mapping, success holds exactly when the `status` field
equals `success`, and `data` and `error` are read from the `data` and
`message`/`error` sub-fields (with `message` taking priority). -/
theorem stdout_mapping_decode_on_zero_exit (parse : String → Option Json)
    (r : ScriptOutput) (kvs : List (String × Json)) (h0 : r.returncode = 0)
    (h1 : r.stdout ≠ "") (h2 : parse r.stdout = some (Json.obj kvs)) :
    ((execute_script_decode parse r).success = true ↔
        pyGet kvs "status" = some (Json.str "success")) ∧
    (execute_script_decode parse r).data = pyGet kvs "data" ∧
    (execute_script_decode parse r).error =
      pyOr (pyGet kvs "message") (pyGet kvs "error") := by
  unfold execute_script_decode
  rw [h0]
  rw [if_pos (by simp [h1])]
  rw [h2]
  refine ⟨?_, rfl, rfl⟩
  cases hv : pyGet kvs "status" with
  | none => simp [hv]
  | some v => cases v <;> simp [hv, beq_iff_eq]

/-- Witness for the amended C1 theorem: exit code 0 with the success JSON
mapping on stdout. -/
theorem stdout_mapping_decode_on_zero_exit_witness :
    ((execute_script_decode parseFix
        { returncode := 0, stdout := successJsonText, stderr := "" }).success
          = true ↔
      pyGet [("status", Json.str "success"), ("data", Json.num 1)] "status"
        = some (Json.str "success")) ∧
    (execute_script_decode parseFix
        { returncode := 0, stdout := successJsonText, stderr := "" }).data
      = pyGet [("status", Json.str "success"), ("data", Json.num 1)] "data" ∧
    (execute_script_decode parseFix
        { returncode := 0, stdout := successJsonText, stderr := "" }).error
      = pyOr
          (pyGet [("status", Json.str "success"), ("data", Json.num 1)]
            "message")
          (pyGet [("status", Json.str "success"), ("data", Json.num 1)]
            "error") :=
  stdout_mapping_decode_on_zero_exit parseFix
    { returncode := 0, stdout := successJsonText, stderr := "" }
    [("status", Json.str "success"), ("data", Json.num 1)]
    rfl (by decide) rfl

/-- C10 counterexample: exit code 0, empty stdout and stderr equal to the
empty JSON object yields success with a `None` error — the error field is
not always non-null in this configuration, because a decoded stderr
mapping may lack truthy `message` and `error` fields. -/
theorem empty_stdout_stderr_error_can_be_none :
    parseFix emptyObjText = some (Json.obj []) ∧
    (execute_script_decode parseFix
      { returncode := 0, stdout := "", stderr := emptyObjText }).success
        = true ∧
    (execute_script_decode parseFix
      { returncode := 0, stdout := "", stderr := emptyObjText }).error
        = none :=
  ⟨rfl, rfl, rfl⟩

/-- C10 amended: on exit code 0 with empty stdout and non-empty stderr, the
result is simultaneously successful and error-carrying: success is true,
data is `None`, and the error field is populated from stderr — the decoded
`message`/`error` field when stderr parses as a JSON mapping (null when
that mapping lacks truthy `message` and `error` fields), else the raw
stderr text. -/
theorem success_with_stderr_error_decode (parse : String → Option Json)
    (r : ScriptOutput) (h0 : r.returncode = 0) (h1 : r.stdout = "")
    (h2 : r.stderr ≠ "") :
    (execute_script_decode parse r).success = true ∧
    (execute_script_decode parse r).data = none ∧
    (execute_script_decode parse r).error =
      (match parse r.stderr with
       | some (Json.obj kvs) => pyOr (pyGet kvs "message") (pyGet kvs "error")
       | some _ => some (Json.str r.stderr)
       | none => some (Json.str r.stderr)) := by
  unfold execute_script_decode
  rw [h0, h1]
  rw [if_neg (by simp)]
  rw [if_pos (by simp [h2])]
  cases parse r.stderr with
  | none => exact ⟨rfl, rfl, rfl⟩
  | some v => cases v <;> exact ⟨rfl, rfl, rfl⟩

/-- Witness for the amended C10 theorem: exit code 0, empty stdout, plain
text stderr. -/
theorem success_with_stderr_error_decode_witness :
    (execute_script_decode parseFix
      { returncode := 0, stdout := "", stderr := "boom" }).success = true ∧
    (execute_script_decode parseFix
      { returncode := 0, stdout := "", stderr := "boom" }).data = none ∧
    (execute_script_decode parseFix
      { returncode := 0, stdout := "", stderr := "boom" }).error =
      (match parseFix "boom" with
       | some (Json.obj kvs) => pyOr (pyGet kvs "message") (pyGet kvs "error")
       | some _ => some (Json.str "boom")
       | none => some (Json.str "boom")) :=
  success_with_stderr_error_decode parseFix
    { returncode := 0, stdout := "", stderr := "boom" } rfl rfl (by decide)

/-! Part: Theorems for name validation (C5) -/

/-- Characters allowed by the name pattern are cased exactly when they are
lowercase letters. -/
theorem pattern_char_cased (c : Char)
    (h : (charIsLower c || charIsDigit c || c == '-') = true) :
    pyIsCased c = charIsLower c := by
  rw [Bool.eq_iff_iff]
  simp only [Bool.or_eq_true, beq_iff_eq] at h
  simp only [pyIsCased, charIsUpper, charIsLower, charIsDigit,
    Bool.or_eq_true, Bool.and_eq_true, decide_eq_true_eq] at h ⊢
  rcases h with (h | h) | h
  · omega
  · omega
  · subst h; simp

/-- Characters allowed by the name pattern pass the alphanumeric-or-hyphen
check of the validator. -/
theorem pattern_char_alnum (c : Char)
    (h : (charIsLower c || charIsDigit c || c == '-') = true) :
    (pyIsalnum c || c == '-') = true := by
  simp only [Bool.or_eq_true, beq_iff_eq] at h
  rcases h with (h | h) | h
  · simp [pyIsalnum, h]
  · simp [pyIsalnum, h]
  · subst h; simp

/-- C5 counterexample: the candidate name `123` has length within 1–64 and
matches the pattern, yet metadata validation rejects it — Python
`str.islower()` is false on strings with no cased character, so the
claimed acceptance of every pattern-matching string of valid length fails. -/
theorem digit_only_name_rejected :
    name_validation_ok "123" = false ∧ 1 ≤ "123".length ∧
      "123".length ≤ 64 ∧ name_matches_pattern "123" = true := by decide

/-- C5 amended: metadata name validation succeeds exactly for the strings
of length 1 to 64 that match the pattern and additionally contain at least
one lowercase letter; names made only of digits and hyphens are rejected
by the `islower` check. -/
theorem name_validation_spec (s : String) :
    name_validation_ok s = true ↔
      1 ≤ s.length ∧ s.length ≤ 64 ∧ name_matches_pattern s = true ∧
        s.toList.any charIsLower = true := by
  unfold name_validation_ok validate_name pyIslower
  simp only [Bool.and_eq_true, decide_eq_true_eq]
  constructor
  · rintro ⟨⟨⟨hl1, hl2⟩, hp⟩, ⟨⟨hany, _⟩, _⟩⟩
    refine ⟨hl1, hl2, hp, ?_⟩
    have hall : ∀ c ∈ s.toList,
        (charIsLower c || charIsDigit c || c == '-') = true := by
      have := (Bool.and_eq_true _ _).mp hp
      exact fun c hc => List.all_eq_true.mp this.2 c hc
    rcases List.any_eq_true.mp hany with ⟨c, hc, hcased⟩
    exact List.any_eq_true.mpr ⟨c, hc, by
      rw [← pattern_char_cased c (hall c hc)]; exact hcased⟩
  · rintro ⟨hl1, hl2, hp, hany⟩
    have hall : ∀ c ∈ s.toList,
        (charIsLower c || charIsDigit c || c == '-') = true := by
      have := (Bool.and_eq_true _ _).mp hp
      exact fun c hc => List.all_eq_true.mp this.2 c hc
    refine ⟨⟨⟨hl1, hl2⟩, hp⟩, ⟨⟨?_, ?_⟩, ?_⟩⟩
    · rcases List.any_eq_true.mp hany with ⟨c, hc, hlow⟩
      exact List.any_eq_true.mpr ⟨c, hc, by
        rw [pattern_char_cased c (hall c hc)]; exact hlow⟩
    · refine List.all_eq_true.mpr fun c hc => ?_
      rw [pattern_char_cased c (hall c hc)]
      cases charIsLower c <;> simp
    · exact List.all_eq_true.mpr fun c hc => pattern_char_alnum c (hall c hc)

/-! Part: Theorems for the parser tool scan (C9) -/

/-- The tool names produced by the scan are exactly the mapped stems of the
qualifying script files. -/
theorem discover_tools_map_name (entries : List DirEntry) :
    (discover_tools true entries).map (fun t => t.name) =
      script_tool_names entries := by
  simp only [discover_tools, Bool.not_true]
  rw [if_neg (by simp)]
  rw [List.map_filterMap]
  apply List.filterMap_congr
  intro f _
  cases h : isToolScript f <;> simp [h, script_tool_names]

/-- C9 counterexample: a scripts directory holding `tool.py` and `tool.sh`
produces two tools that share the name `tool` — tool names are not
pairwise distinct for every parsed skill, because distinct files can map
to the same stem. -/
theorem tool_name_collision :
    ¬ ((discover_tools true
        [{ name := "tool.py", isFile := true },
         { name := "tool.sh", isFile := true }]).map
      (fun t => t.name)).Nodup := by decide

/-- C9 amended: tool names are pairwise distinct within a skill whenever
the underscore-to-hyphen mapped stems of the qualifying script files are
pairwise distinct; the scan itself never deduplicates. -/
theorem tool_names_nodup (ok : Bool) (entries : List DirEntry)
    (h : (script_tool_names entries).Nodup) :
    ((discover_tools ok entries).map (fun t => t.name)).Nodup := by
  cases ok
  · simp [discover_tools]
  · rw [discover_tools_map_name]; exact h

/-- Witness for the amended C9 theorem: two scripts with distinct mapped
stems. -/
theorem tool_names_nodup_witness :
    ((discover_tools true
        [{ name := "load_dataset.py", isFile := true },
         { name := "fetch.sh", isFile := true }]).map
      (fun t => t.name)).Nodup :=
  tool_names_nodup true _ (by decide)

/-! Part: Theorems for discovery non-nesting (C6) -/

/-- Elements produced under a child list come from one of the children,
prefixed by that child directory name. -/
theorem of_mem_findDirsChildren {cs : List (String × DirTree)}
    {q : List String} (hq : q ∈ findDirsChildren cs) :
    ∃ m t q', (m, t) ∈ cs ∧ q' ∈ findDirs t ∧ q = m :: q' := by
  induction cs with
  | nil => simp [findDirsChildren] at hq
  | cons p rest ih =>
    obtain ⟨n, t⟩ := p
    simp only [findDirsChildren, List.mem_append, List.mem_map] at hq
    rcases hq with ⟨q', hq', rfl⟩ | hq
    · exact ⟨n, t, q', by simp, hq', rfl⟩
    · rcases ih hq with ⟨m, t', q', hm, hq', rfl⟩
      exact ⟨m, t', q', List.mem_cons_of_mem _ hm, hq', rfl⟩

mutual

/-- On a well-formed tree, no reported bundle directory is a strict prefix
of another reported one. -/
theorem findDirs_prefixFree : ∀ (t : DirTree), t.wf = true →
    ∀ p q, p ∈ findDirs t → q ∈ findDirs t → p <+: q → p = q
  | .mk true cs => by
      intro hw p q hp hq hpre
      simp [findDirs] at hp hq
      subst hp; subst hq; rfl
  | .mk false cs => by
      intro hw p q hp hq hpre
      simp only [findDirs] at hp hq
      have hw' : (cs.map Prod.fst).Nodup ∧ wfChildren cs = true := by
        have := hw
        simp only [DirTree.wf, Bool.and_eq_true, decide_eq_true_eq] at this
        exact this
      exact findDirsChildren_prefixFree cs hw'.2 hw'.1 p q hp hq hpre

/-- The child-list form of `findDirs_prefixFree`. -/
theorem findDirsChildren_prefixFree : ∀ (cs : List (String × DirTree)),
    wfChildren cs = true → (cs.map Prod.fst).Nodup →
    ∀ p q, p ∈ findDirsChildren cs → q ∈ findDirsChildren cs →
      p <+: q → p = q
  | [] => by
      intro _ _ p q hp _ _
      simp [findDirsChildren] at hp
  | (n, t) :: rest => by
      intro hw hnodup p q hp hq hpre
      have hwt : t.wf = true ∧ wfChildren rest = true := by
        have := hw
        simp only [wfChildren, Bool.and_eq_true] at this
        exact this
      have hnd : n ∉ rest.map Prod.fst ∧ (rest.map Prod.fst).Nodup := by
        simpa using hnodup
      simp only [findDirsChildren, List.mem_append, List.mem_map] at hp hq
      rcases hp with ⟨a, ha, rfl⟩ | hp
      · rcases hq with ⟨b, hb, rfl⟩ | hq
        · have hab : a <+: b := (List.cons_prefix_cons.mp hpre).2
          rw [findDirs_prefixFree t hwt.1 a b ha hb hab]
        · rcases of_mem_findDirsChildren hq with ⟨m, t', q', hm, hq', rfl⟩
          have hnm : n = m := (List.cons_prefix_cons.mp hpre).1
          apply absurd _ hnd.1
          rw [hnm]
          exact List.mem_map_of_mem Prod.fst hm
      · rcases hq with ⟨b, hb, rfl⟩ | hq
        · rcases of_mem_findDirsChildren hp with ⟨m, t', p', hm, hp', rfl⟩
          have hmn : m = n := (List.cons_prefix_cons.mp hpre).1
          apply absurd _ hnd.1
          rw [← hmn]
          exact List.mem_map_of_mem Prod.fst hm
        · exact findDirsChildren_prefixFree rest hwt.2 hnd.2 p q hp hq hpre

end

/-- C6: a directory identified as a bundle is reported alone no matter what
lies below it, and on any well-formed root tree the reported bundle
directories are prefix-free — a manifest nested anywhere below an
identified bundle is never reported as a separate skill. -/
theorem bundle_dirs_not_nested :
    (∀ cs, findDirs (DirTree.mk true cs) = [[]]) ∧
    (∀ t : DirTree, t.wf = true → ∀ p q, p ∈ findDirs t → q ∈ findDirs t →
      p <+: q → p = q) :=
  ⟨fun _ => rfl, findDirs_prefixFree⟩

/-- Witness for the C6 theorem on the fixture tree. -/
theorem bundle_dirs_not_nested_witness :
    findDirs (DirTree.mk true [("b", DirTree.mk true [])]) = [[]] ∧
    (["a"] : List String) = ["a"] :=
  ⟨bundle_dirs_not_nested.1 _,
   bundle_dirs_not_nested.2 treeFix (by decide) ["a"] ["a"]
     (by decide) (by decide) ⟨[], rfl⟩⟩

/-! Part: Theorems for discovery deduplication (C2) -/

/-- One step of the scan fold, as an equation. -/
theorem scanRoot_cons (parse : List String → Option SkillM)
    (d : List String) (rest : List (List String))
    (st : List SkillM × List String) :
    scanRoot parse (d :: rest) st =
      scanRoot parse rest
        (match parse d with
         | none => st
         | some skill =>
           if st.2.contains skill.name then st
           else (st.1 ++ [skill], skill.name :: st.2)) := rfl

/-- The scan of a list of candidate directories appends exactly the
deduplicated successful parses to the accumulator. -/
theorem scanRoot_eq (parse : List String → Option SkillM) :
    ∀ (dirs : List (List String)) (acc : List SkillM) (seen : List String),
    scanRoot parse dirs (acc, seen) =
      (acc ++ dedupByName (dirs.filterMap parse) seen,
       seenAfter (dirs.filterMap parse) seen) := by
  intro dirs
  induction dirs with
  | nil => intro acc seen; simp [scanRoot, dedupByName, seenAfter]
  | cons d rest ih =>
    intro acc seen
    rw [scanRoot_cons]
    cases hp : parse d with
    | none => simp only [List.filterMap_cons, hp]; exact ih acc seen
    | some sk =>
      simp only [List.filterMap_cons, hp]
      cases hc : seen.contains sk.name with
      | true =>
        simp only [hc, if_true, dedupByName, seenAfter]
        exact ih acc seen
      | false =>
        simp only [hc, dedupByName, seenAfter, Bool.false_eq_true, if_false]
        rw [ih (acc ++ [sk]) (sk.name :: seen)]
        simp [List.append_assoc]

/-- Processing a concatenation threads the seen set left to right. -/
theorem seenAfter_append (a b : List SkillM) :
    ∀ seen, seenAfter (a ++ b) seen = seenAfter b (seenAfter a seen) := by
  induction a with
  | nil => intro seen; simp [seenAfter]
  | cons s rest ih =>
    intro seen
    simp only [List.cons_append, seenAfter]
    cases seen.contains s.name <;> simp [ih]

/-- Deduplicating a concatenation threads the seen set left to right. -/
theorem dedupByName_append (a b : List SkillM) :
    ∀ seen, dedupByName (a ++ b) seen =
      dedupByName a seen ++ dedupByName b (seenAfter a seen) := by
  induction a with
  | nil => intro seen; simp [dedupByName, seenAfter]
  | cons s rest ih =>
    intro seen
    simp only [List.cons_append, dedupByName, seenAfter]
    cases seen.contains s.name <;> simp [ih]

/-- The discovery fold over the roots equals deduplication of the flat
stream of successful parses. -/
theorem discover_skills_foldl (roots : List RootFs) :
    ∀ (acc : List SkillM) (seen : List String),
    roots.foldl (fun acc root =>
        if root.pathExists then scanRoot root.parse (findDirs root.tree) acc
        else acc) (acc, seen)
      = (acc ++ dedupByName (successfulParses roots) seen,
         seenAfter (successfulParses roots) seen) := by
  induction roots with
  | nil => intro acc seen; simp [successfulParses, dedupByName, seenAfter]
  | cons r rest ih =>
    intro acc seen
    simp only [List.foldl_cons]
    cases he : r.pathExists with
    | false =>
      have hsp : successfulParses (r :: rest) = successfulParses rest := by
        simp [successfulParses, List.filter_cons, he]
      rw [if_neg (by simp [he]), ih, hsp]
    | true =>
      have hsp : successfulParses (r :: rest) =
          (findDirs r.tree).filterMap r.parse ++ successfulParses rest := by
        simp [successfulParses, List.filter_cons, he]
      rw [if_pos (by simp [he]), scanRoot_eq, ih, hsp,
        dedupByName_append, seenAfter_append]
      simp [List.append_assoc]

/-- Filtering a deduplicated list by a name keeps exactly the first
occurrence of that name, none if the name was already seen. -/
theorem dedupByName_filter (n : String) :
    ∀ (l : List SkillM) (seen : List String),
      (seen.contains n = false →
        (dedupByName l seen).filter (fun s => s.name == n) =
          (l.find? (fun s => s.name == n)).toList) ∧
      (seen.contains n = true →
        (dedupByName l seen).filter (fun s => s.name == n) = []) := by
  intro l
  induction l with
  | nil => intro seen; simp [dedupByName]
  | cons s rest ih =>
    intro seen
    constructor
    · intro hn
      cases hsn : (s.name == n) with
      | true =>
        have hsn' : s.name = n := by simpa using hsn
        have hc : seen.contains s.name = false := by rw [hsn']; exact hn
        simp only [dedupByName, hc, Bool.false_eq_true, if_false]
        rw [List.filter_cons_of_pos (by simpa using hsn),
          List.find?_cons_of_pos _ (by simpa using hsn)]
        have hrest := (ih (s.name :: seen)).2
          (by simp [List.contains_cons, hsn'])
        rw [hrest]
        rfl
      | false =>
        have hsn' : s.name ≠ n := by simpa using hsn
        rw [List.find?_cons_of_neg _ (by simpa using hsn)]
        cases hc : seen.contains s.name with
        | true =>
          simp only [dedupByName, hc, if_true]
          exact (ih seen).1 hn
        | false =>
          simp only [dedupByName, hc, Bool.false_eq_true, if_false]
          rw [List.filter_cons_of_neg (by simpa using hsn)]
          have hn' : n ∉ seen := by simpa using hn
          exact (ih (s.name :: seen)).1
            (by simp [List.contains_cons, Ne.symm hsn', hn'])
    · intro hn
      cases hsn : (s.name == n) with
      | true =>
        have hsn' : s.name = n := by simpa using hsn
        have hc : seen.contains s.name = true := by rw [hsn']; exact hn
        simp only [dedupByName, hc, if_true]
        exact (ih seen).2 hn
      | false =>
        have hsn' : s.name ≠ n := by simpa using hsn
        cases hc : seen.contains s.name with
        | true =>
          simp only [dedupByName, hc, if_true]
          exact (ih seen).2 hn
        | false =>
          simp only [dedupByName, hc, Bool.false_eq_true, if_false]
          rw [List.filter_cons_of_neg (by simpa using hsn)]
          have hn' : n ∈ seen := by simpa using hn
          exact (ih (s.name :: seen)).2
            (by simp [List.contains_cons, hn'])

/-- C2: whenever some candidate bundle parses to name `n`, the discovery
result contains exactly one skill of that name — the first successful
parse in root-priority order — and the whole result equals the
deduplication of the successful parses alone, so a bundle that fails to
parse is skipped without aborting the scan or affecting the other
results. -/
theorem discovery_dedup_first_wins (roots : List RootFs) (n : String)
    (sk : SkillM)
    (h : (successfulParses roots).find? (fun s => s.name == n) = some sk) :
    (discover_skills roots).filter (fun s => s.name == n) = [sk] ∧
    discover_skills roots = dedupByName (successfulParses roots) [] := by
  have he : discover_skills roots =
      dedupByName (successfulParses roots) [] := by
    unfold discover_skills
    rw [discover_skills_foldl]
    simp
  refine ⟨?_, he⟩
  rw [he]
  rw [(dedupByName_filter n (successfulParses roots) []).1 (by simp), h]
  rfl

/-- Witness for the C2 theorem: two fixture roots both holding a bundle
named `x`; the skill from the first root wins. -/
theorem discovery_dedup_first_wins_witness :
    (discover_skills [rootA, rootB]).filter (fun s => s.name == "x")
        = [skillXA] ∧
    discover_skills [rootA, rootB] =
      dedupByName (successfulParses [rootA, rootB]) [] :=
  discovery_dedup_first_wins [rootA, rootB] "x" skillXA rfl

/-! Part: Theorems for the client cache (C4) -/

/-- C4: a successful load leaves the client in a state from which a second
load of the same name returns the identical cached skill and state, with
any discovery environment at all — so no re-parse happens; reloading
empties the skill cache; and a load after a reload goes back to discovery
and returns whatever the bundle parses to now. -/
theorem load_skill_cache_and_reload :
    (∀ (roots : List RootFs) (st : ClientState) (n : String) (sk : SkillM)
        (st' : ClientState), load_skill roots st n = .ok (sk, st') →
      ∀ roots₂ : List RootFs, load_skill roots₂ st' n = .ok (sk, st')) ∧
    (∀ (roots : List RootFs) (st : ClientState),
      (reload_skills roots st).skills_cache = []) ∧
    (∀ (roots : List RootFs) (st : ClientState) (n : String)
        (sp : Nat × List String) (sk : SkillM),
      find_skill_path roots n = some sp → parseAt roots sp = some sk →
      load_skill roots (reload_skills roots st) n =
        .ok (sk, { skills_cache := [(n, sk)]
                   metadata_cache := discover_metadata roots })) := by
  refine ⟨?_, fun roots st => rfl, ?_⟩
  · intro roots st n sk st' h roots₂
    unfold load_skill at h ⊢
    cases hfind : st.skills_cache.find? (fun p => p.1 == n) with
    | some p =>
      simp only [hfind, Except.ok.injEq, Prod.mk.injEq] at h
      obtain ⟨h1, h2⟩ := h
      subst h1
      subst h2
      rw [hfind]
    | none =>
      simp only [hfind] at h
      cases hpath : find_skill_path roots n with
      | none => simp only [hpath] at h; exact absurd h (by simp)
      | some sp =>
        simp only [hpath] at h
        cases hparse : parseAt roots sp with
        | none => simp only [hparse] at h; exact absurd h (by simp)
        | some skill =>
          simp only [hparse, Except.ok.injEq, Prod.mk.injEq] at h
          obtain ⟨h1, h2⟩ := h
          subst h1
          subst h2
          rw [List.find?_cons_of_pos _ (by simp)]
  · intro roots st n sp sk hpath hparse
    unfold load_skill reload_skills
    simp only [List.find?_nil, hpath, hparse]

/-- Witness for the C4 theorem: load `y` from the fixture root, load it
again with no roots at all, reload, observe the empty cache and the fresh
re-parse. -/
theorem load_skill_cache_and_reload_witness :
    load_skill ([] : List RootFs)
        { skills_cache := [("y", skillY)], metadata_cache := [] } "y" =
      .ok (skillY,
        { skills_cache := [("y", skillY)], metadata_cache := [] }) ∧
    (reload_skills [rootY]
        { skills_cache := [("y", skillY)],
          metadata_cache := [] }).skills_cache = [] ∧
    load_skill [rootY]
        (reload_skills [rootY]
          { skills_cache := [("y", skillY)], metadata_cache := [] }) "y" =
      .ok (skillY, { skills_cache := [("y", skillY)]
                     metadata_cache := discover_metadata [rootY] }) :=
  ⟨load_skill_cache_and_reload.1 [rootY]
      { skills_cache := [], metadata_cache := [] } "y" skillY
      { skills_cache := [("y", skillY)], metadata_cache := [] } rfl [],
   load_skill_cache_and_reload.2.1 [rootY]
     { skills_cache := [("y", skillY)], metadata_cache := [] },
   load_skill_cache_and_reload.2.2 [rootY]
     { skills_cache := [("y", skillY)], metadata_cache := [] } "y" (0, ["y"])
     skillY rfl rfl⟩

/-! Part: Theorems for resource fetching (C8) -/

/-- C8: on a loaded skill, `get_resource` yields resource-not-found in
exactly two cases — the resource name is not declared in the resource list
of the skill, or it is declared but its backing file does not exist — and
otherwise returns the raw bytes of the backing file. -/
theorem get_resource_spec (roots : List RootFs) (fs : FsOracle)
    (st : ClientState) (sn rn : String) (skill : SkillM) (st' : ClientState)
    (h : load_skill roots st sn = .ok (skill, st')) :
    (get_resource roots fs st sn rn = .error .resourceNotFound ↔
      skill.get_resource rn = none ∨
        ∃ r, skill.get_resource rn = some r ∧
          fs.fileExists r.path = false) ∧
    (∀ r, skill.get_resource rn = some r → fs.fileExists r.path = true →
      get_resource roots fs st sn rn = .ok (fs.readBytes r.path, st')) := by
  unfold get_resource
  rw [h]
  constructor
  · cases hr : skill.get_resource rn with
    | none => simp [hr]
    | some r =>
      cases hex : fs.fileExists r.path with
      | true => simp [hr, hex]
      | false => simp [hr, hex]
  · intro r hr hex
    simp only [hr, hex, if_true]

/-- Witness for the C8 theorem: fetching the declared, existing resource
of the fixture skill returns its bytes. -/
theorem get_resource_spec_witness :
    get_resource [rootY] fsFix { skills_cache := [], metadata_cache := [] }
        "y" "notes.txt" =
      .ok (fsFix.readBytes notesResource.path,
        { skills_cache := [("y", skillY)], metadata_cache := [] }) :=
  (get_resource_spec [rootY] fsFix
    { skills_cache := [], metadata_cache := [] } "y" "notes.txt" skillY
    { skills_cache := [("y", skillY)], metadata_cache := [] } rfl).2
    notesResource rfl rfl

end AgentSkills
